import Mathlib

/-
Verification development for the GRANDPA vote/justification data model of
core/consensus/grandpa/structs.hpp, together with a spec-level model of the
round tally (best_final_candidate / is_completable / import_vote), which is
described by the specification but whose implementation files are not part of
the excerpt.

Conventions of the shallow embedding:
* machine integers are `Nat`; fixed-width wire integers are encoded/decoded
  little-endian with an explicit width;
* an encoder stream is the list of bytes written so far, and each C++
  `operator<<` becomes a function `List Byte → α → List Byte` (or
  `… → Option (List Byte)` when the C++ operator can throw, as the
  SignedPrevote/SignedPrecommit operators do via `boost::strict_get`);
* a decoder stream is the list of bytes not yet consumed, and each C++
  `operator>>` becomes a function `List Byte → Except DecodeError (α × List Byte)`;
* the SCALE codec itself (compact length prefixes, fixed-width integers,
  vectors as length-prefixed element sequences, variants as a one-byte index
  followed by the payload) is an external dependency of the repository and is
  modelled here following the specification's wire-format section.
-/

namespace KagomeGrandpa

/-- Bytes of the wire format; well-formed streams hold values below 256. -/
abbrev Byte := Nat

/-- Little-endian fixed-width encoding of a natural number on `w` bytes. -/
def toLE : Nat → Nat → List Byte
  | 0, _ => []
  | w + 1, n => n % 256 :: toLE w (n / 256)

/-- Little-endian reading of a byte list back into a natural number. -/
def fromLE : List Byte → Nat
  | [] => 0
  | b :: bs => b + 256 * fromLE bs

/-- Minimal little-endian byte representation of a natural number. -/
def natBytes (n : Nat) : List Byte :=
  if h : n = 0 then []
  else n % 256 :: natBytes (n / 256)
decreasing_by exact Nat.div_lt_self (Nat.pos_of_ne_zero h) (by norm_num)

/-- Modelled from the spec: the SCALE compact (variable-width) encoding of an
unsigned integer, used by the external scale codec for collection lengths.
Mode 0 is a single byte for values below 2^6, mode 1 two bytes below 2^14,
mode 2 four bytes below 2^30, mode 3 a length byte followed by the minimal
little-endian representation. -/
def encodeCompact (n : Nat) : List Byte :=
  if n < 2 ^ 6 then [n * 4]
  else if n < 2 ^ 14 then toLE 2 (n * 4 + 1)
  else if n < 2 ^ 30 then toLE 4 (n * 4 + 2)
  else (((natBytes n).length - 4) * 4 + 3) :: natBytes n

/-- Decode errors of the modelled SCALE decoder stream: reading past the end
of the stream, or meeting bytes that fit no valid value. -/
inductive DecodeError where
  | notEnoughData
  | invalidData
deriving DecidableEq

/-- Reading a fixed number of raw bytes from the decoder stream. -/
def readBytes (k : Nat) (s : List Byte) : Except DecodeError (List Byte × List Byte) :=
  if k ≤ s.length then .ok (s.take k, s.drop k) else .error .notEnoughData

/-- Modelled from the spec: decoding a SCALE compact unsigned integer. -/
def decodeCompact (s : List Byte) : Except DecodeError (Nat × List Byte) :=
  match s with
  | [] => .error .notEnoughData
  | b :: rest =>
    if b % 4 = 0 then .ok (b / 4, rest)
    else if b % 4 = 1 then
      match rest with
      | b1 :: rest1 => .ok ((b + 256 * b1) / 4, rest1)
      | [] => .error .notEnoughData
    else if b % 4 = 2 then
      match rest with
      | b1 :: b2 :: b3 :: rest3 => .ok (fromLE [b, b1, b2, b3] / 4, rest3)
      | _ => .error .notEnoughData
    else do
      let (bs, r) ← readBytes (b / 4 + 4) rest
      .ok (fromLE bs, r)

/-- Embedding of the decoder stream's `hasMore(n)`: whether at least `n`
bytes remain unconsumed. -/
def hasMore (n : Nat) (s : List Byte) : Bool :=
  decide (n ≤ s.length)

/-- Modelled from the spec: a block reference `(number, hash)`; the C++
`primitives::detail::BlockInfoT` lives in primitives/common.hpp, which is not
part of the excerpt. The number is an unsigned 64-bit integer and the hash a
32-byte digest. -/
structure BlockInfo where
  number : Nat
  hash : List Byte
deriving DecidableEq

/-- The `Vote` tagged union of structs.hpp. The source stresses that the
order of the variants matters; it is `Prevote`, `Precommit`, `PrimaryPropose`
in that order, each carrying a block reference. -/
inductive Vote where
  | Prevote (b : BlockInfo)
  | Precommit (b : BlockInfo)
  | PrimaryPropose (b : BlockInfo)
deriving DecidableEq

/-- Block reference carried by the active variant of a `Vote`. -/
def Vote.target : Vote → BlockInfo
  | .Prevote b => b
  | .Precommit b => b
  | .PrimaryPropose b => b

/-- The `SignedMessage` structure of structs.hpp: a vote, the voter's
signature (64 raw bytes on the wire) and the voter's id (32 raw bytes). -/
structure SignedMessage where
  message : Vote
  signature : List Byte
  id : List Byte
deriving DecidableEq

/-- Embedding of `SignedMessage::getBlockNumber`, which visits the active
variant and returns its `number` field. -/
def SignedMessage.getBlockNumber (m : SignedMessage) : Nat :=
  match m.message with
  | .Prevote v => v.number
  | .Precommit v => v.number
  | .PrimaryPropose v => v.number

/-- Embedding of `SignedMessage::getBlockHash`, which visits the active
variant and returns its `hash` field. -/
def SignedMessage.getBlockHash (m : SignedMessage) : List Byte :=
  match m.message with
  | .Prevote v => v.hash
  | .Precommit v => v.hash
  | .PrimaryPropose v => v.hash

/-- Embedding of `SignedMessage::getBlockInfo`, which visits the active
variant and rebuilds a block reference from its number and hash. -/
def SignedMessage.getBlockInfo (m : SignedMessage) : BlockInfo :=
  match m.message with
  | .Prevote v => ⟨v.number, v.hash⟩
  | .Precommit v => ⟨v.number, v.hash⟩
  | .PrimaryPropose v => ⟨v.number, v.hash⟩

/-- Embedding of `SignedMessage::is<Prevote>`: the type test on the active
variant of the vote payload. -/
def SignedMessage.isPrevote (m : SignedMessage) : Bool :=
  match m.message with
  | .Prevote _ => true
  | _ => false

/-- Embedding of `SignedMessage::is<Precommit>`. -/
def SignedMessage.isPrecommit (m : SignedMessage) : Bool :=
  match m.message with
  | .Precommit _ => true
  | _ => false

/-- Embedding of `SignedMessage::is<PrimaryPropose>`. -/
def SignedMessage.isPrimaryPropose (m : SignedMessage) : Bool :=
  match m.message with
  | .PrimaryPropose _ => true
  | _ => false

/-- Embedding of `SignedMessage::operator==`: conjunction of component
equalities of `message`, `signature` and `id`, in that order. -/
def SignedMessage.eqOp (a rhs : SignedMessage) : Bool :=
  decide (a.message = rhs.message) && decide (a.signature = rhs.signature)
    && decide (a.id = rhs.id)

/-- Embedding of `SignedMessage::operator!=`, defined in the source as the
negation of `operator==`. -/
def SignedMessage.neOp (a rhs : SignedMessage) : Bool :=
  ! a.eqOp rhs

/-- Writing raw bytes to an encoder stream (fixed-size digests, signatures
and ids are written without a length prefix). -/
def putBytes (st bs : List Byte) : List Byte :=
  st ++ bs

/-- Writing a 64-bit unsigned integer (round numbers, voter-set counters,
block numbers) to an encoder stream. -/
def putU64 (st : List Byte) (n : Nat) : List Byte :=
  st ++ toLE 8 n

/-- Modelled from the spec: a block reference is written as its number
followed by its hash. -/
def putBlockInfo (st : List Byte) (b : BlockInfo) : List Byte :=
  putBytes (putU64 st b.number) b.hash

/-- Modelled from the spec: the external codec writes a tagged union as a
one-byte variant index followed by the payload; the index order is the
declaration order of `Vote` in structs.hpp (`Prevote`, `Precommit`,
`PrimaryPropose`). -/
def putVote (st : List Byte) (v : Vote) : List Byte :=
  match v with
  | .Prevote b => putBlockInfo (st ++ [0]) b
  | .Precommit b => putBlockInfo (st ++ [1]) b
  | .PrimaryPropose b => putBlockInfo (st ++ [2]) b

/-- Embedding of the `SignedMessage` encoder of structs.hpp:
`s << signed_msg.message << signed_msg.signature << signed_msg.id`. -/
def putSignedMessage (st : List Byte) (m : SignedMessage) : List Byte :=
  putBytes (putBytes (putVote st m.message) m.signature) m.id

/-- Writing each element of a list in turn with a total element encoder. -/
def putListT {α : Type} (enc : List Byte → α → List Byte) :
    List Byte → List α → List Byte
  | st, [] => st
  | st, x :: xs => putListT enc (enc st x) xs

/-- Modelled from the spec: the external codec writes a sequence as a compact
length followed by the elements in order (total element encoder). -/
def putVecWith {α : Type} (enc : List Byte → α → List Byte)
    (st : List Byte) (xs : List α) : List Byte :=
  putListT enc (st ++ encodeCompact xs.length) xs

/-- Writing each element of a list in turn with a fallible element encoder. -/
def putListO {α : Type} (enc : List Byte → α → Option (List Byte)) :
    List Byte → List α → Option (List Byte)
  | st, [] => some st
  | st, x :: xs => do
    let s1 ← enc st x
    putListO enc s1 xs

/-- Modelled from the spec: the external codec writes a sequence as a compact
length followed by the elements in order (fallible element encoder). -/
def putVecOpt {α : Type} (enc : List Byte → α → Option (List Byte))
    (st : List Byte) (xs : List α) : Option (List Byte) :=
  putListO enc (st ++ encodeCompact xs.length) xs

/-- Embedding of the `SignedPrevote` encoder of structs.hpp: it writes
`boost::strict_get<Prevote>(message)` (the bare block reference, without the
variant tag) followed by the signature and the id; `strict_get` throws when
the active variant is not `Prevote`, modelled by `none`. -/
def putSignedPrevote (st : List Byte) (m : SignedMessage) : Option (List Byte) :=
  match m.message with
  | .Prevote b => some (putBytes (putBytes (putBlockInfo st b) m.signature) m.id)
  | _ => none

/-- Embedding of the `SignedPrecommit` encoder of structs.hpp, the `Precommit`
counterpart of the `SignedPrevote` encoder. -/
def putSignedPrecommit (st : List Byte) (m : SignedMessage) : Option (List Byte) :=
  match m.message with
  | .Precommit b => some (putBytes (putBytes (putBlockInfo st b) m.signature) m.id)
  | _ => none

/-- Modelled from the spec: an ancestry block header (primitives/block_header.hpp
is not part of the excerpt): parent hash, block number and an opaque digest
blob written with a length prefix. -/
structure BlockHeader where
  parent_hash : List Byte
  number : Nat
  digest : List Byte
deriving DecidableEq

/-- Modelled from the spec: the header encoder writes parent hash, number and
the length-prefixed digest blob. -/
def putBlockHeader (st : List Byte) (h : BlockHeader) : List Byte :=
  putBytes (putU64 (putBytes st h.parent_hash) h.number)
    (encodeCompact h.digest.length ++ h.digest)

/-- The `GrandpaJustification` structure of structs.hpp: round number,
finalized block reference, the signed precommits justifying it (held as
`SignedPrecommit` values, i.e. `SignedMessage`s whose wire form requires the
`Precommit` variant), and the ancestry headers. -/
structure GrandpaJustification where
  round_number : Nat
  block_info : BlockInfo
  items : List SignedMessage
  votes_ancestries : List BlockHeader
deriving DecidableEq

/-- Embedding of the `GrandpaJustification` encoder of structs.hpp:
`s << v.round_number << v.block_info << v.items << v.votes_ancestries`.
It is fallible because every item is written through the `SignedPrecommit`
encoder, which throws on a non-`Precommit` payload. -/
def putGrandpaJustification (st : List Byte) (v : GrandpaJustification) :
    Option (List Byte) := do
  let s1 := putU64 st v.round_number
  let s2 := putBlockInfo s1 v.block_info
  let s3 ← putVecOpt putSignedPrecommit s2 v.items
  some (putVecWith putBlockHeader s3 v.votes_ancestries)

/-- The `VoteMessage` structure of structs.hpp: round number, voter-set
counter and the signed vote, tied for serialization in declaration order by
`SCALE_TIE(3)`. -/
structure VoteMessage where
  round_number : Nat
  counter : Nat
  vote : SignedMessage

/-- Embedding of the `VoteMessage` encoder: `SCALE_TIE(3)` writes the three
fields in declaration order. -/
def putVoteMessage (st : List Byte) (vm : VoteMessage) : List Byte :=
  putSignedMessage (putU64 (putU64 st vm.round_number) vm.counter) vm.vote

/-- Writing a `(signature, id)` pair: the external codec writes a pair as its
first component followed by its second. -/
def putAuthPair (st : List Byte) (p : List Byte × List Byte) : List Byte :=
  putBytes (putBytes st p.1) p.2

/-- The `CompactCommit` structure of structs.hpp: target hash, target number,
the precommit block references, and the parallel `(signature, id)`
authentication sequence, tied for serialization in declaration order by
`SCALE_TIE(4)`. -/
structure CompactCommit where
  target_hash : List Byte
  target_number : Nat
  precommits : List BlockInfo
  auth_data : List (List Byte × List Byte)

/-- Embedding of the `CompactCommit` encoder: `SCALE_TIE(4)` writes the four
fields in declaration order; the precommits are bare block references and the
authentication data is a separate, parallel sequence of pairs. -/
def putCompactCommit (st : List Byte) (c : CompactCommit) : List Byte :=
  putVecWith putAuthPair
    (putVecWith putBlockInfo (putU64 (putBytes st c.target_hash) c.target_number)
      c.precommits)
    c.auth_data

/-- Reading a 64-bit little-endian unsigned integer from a decoder stream. -/
def decodeU64 (s : List Byte) : Except DecodeError (Nat × List Byte) := do
  let (bs, r) ← readBytes 8 s
  .ok (fromLE bs, r)

/-- Modelled from the spec: decoding a block reference (number, then hash). -/
def decodeBlockInfo (s : List Byte) : Except DecodeError (BlockInfo × List Byte) := do
  let (n, s1) ← decodeU64 s
  let (h, s2) ← readBytes 32 s1
  .ok (⟨n, h⟩, s2)

/-- Modelled from the spec: decoding the `Vote` tagged union — a one-byte
variant index (0 `Prevote`, 1 `Precommit`, 2 `PrimaryPropose`) followed by
the block reference payload. -/
def decodeVote (s : List Byte) : Except DecodeError (Vote × List Byte) :=
  match s with
  | [] => .error .notEnoughData
  | tag :: rest =>
    if tag = 0 then do
      let (b, s1) ← decodeBlockInfo rest
      .ok (.Prevote b, s1)
    else if tag = 1 then do
      let (b, s1) ← decodeBlockInfo rest
      .ok (.Precommit b, s1)
    else if tag = 2 then do
      let (b, s1) ← decodeBlockInfo rest
      .ok (.PrimaryPropose b, s1)
    else .error .invalidData

/-- Embedding of the `SignedMessage` decoder of structs.hpp:
`s >> signed_msg.message >> signed_msg.signature >> signed_msg.id`. -/
def decodeSignedMessage (s : List Byte) :
    Except DecodeError (SignedMessage × List Byte) := do
  let (v, s1) ← decodeVote s
  let (sig, s2) ← readBytes 64 s1
  let (i, s3) ← readBytes 32 s2
  .ok (⟨v, sig, i⟩, s3)

/-- Embedding of the `SignedPrevote` decoder of structs.hpp: it first sets
the payload to `Prevote{}` and then decodes directly into that variant (bare
block reference, no tag byte), followed by signature and id; the produced
message therefore always carries the `Prevote` variant. -/
def decodeSignedPrevote (s : List Byte) :
    Except DecodeError (SignedMessage × List Byte) := do
  let (b, s1) ← decodeBlockInfo s
  let (sig, s2) ← readBytes 64 s1
  let (i, s3) ← readBytes 32 s2
  .ok (⟨.Prevote b, sig, i⟩, s3)

/-- Embedding of the `SignedPrecommit` decoder of structs.hpp, the
`Precommit` counterpart of the `SignedPrevote` decoder. -/
def decodeSignedPrecommit (s : List Byte) :
    Except DecodeError (SignedMessage × List Byte) := do
  let (b, s1) ← decodeBlockInfo s
  let (sig, s2) ← readBytes 64 s1
  let (i, s3) ← readBytes 32 s2
  .ok (⟨.Precommit b, sig, i⟩, s3)

/-- Decoding `n` consecutive elements with a given element decoder. -/
def decodeListD {α : Type} (dec : List Byte → Except DecodeError (α × List Byte)) :
    Nat → List Byte → Except DecodeError (List α × List Byte)
  | 0, s => .ok ([], s)
  | n + 1, s => do
    let (a, s1) ← dec s
    let (as, s2) ← decodeListD dec n s1
    .ok (a :: as, s2)

/-- Modelled from the spec: decoding a sequence — a compact length followed
by that many elements. -/
def decodeVec {α : Type} (dec : List Byte → Except DecodeError (α × List Byte))
    (s : List Byte) : Except DecodeError (List α × List Byte) := do
  let (n, s1) ← decodeCompact s
  decodeListD dec n s1

/-- Modelled from the spec: decoding an ancestry block header (parent hash,
number, length-prefixed digest blob). -/
def decodeBlockHeader (s : List Byte) :
    Except DecodeError (BlockHeader × List Byte) := do
  let (p, s1) ← readBytes 32 s
  let (n, s2) ← decodeU64 s1
  let (len, s3) ← decodeCompact s2
  let (d, s4) ← readBytes len s3
  .ok (⟨p, n, d⟩, s4)

/-- Embedding of the `GrandpaJustification` decoder of structs.hpp: it reads
round number, block reference and precommit items, then — when fewer than one
byte remains (`not s.hasMore(1)`) — logs the missing-`votes_ancestries`
diagnostic (logging does not alter the stream or the result), and then
unconditionally decodes `votes_ancestries` from whatever remains. -/
def decodeGrandpaJustification (s : List Byte) :
    Except DecodeError (GrandpaJustification × List Byte) := do
  let (r, s1) ← decodeU64 s
  let (bi, s2) ← decodeBlockInfo s1
  let (items, s3) ← decodeVec decodeSignedPrecommit s2
  let (anc, s4) ← decodeVec decodeBlockHeader s3
  .ok (⟨r, bi, items, anc⟩, s4)

/-- Modelled from the spec: a voter of the weighted roster (§3 VoterSet);
the voting-round implementation files are not part of the excerpt. -/
structure Voter where
  id : Nat
  weight : Nat
deriving DecidableEq

/-- Modelled from the spec: the weighted, ordered roster of voters. -/
structure VoterSet where
  voters : List Voter
deriving DecidableEq

/-- Total weight of a voter set: the sum of all voter weights. -/
def VoterSet.totalWeight (vs : VoterSet) : Nat :=
  (vs.voters.map Voter.weight).sum

/-- Supermajority threshold of a voter set:
`floor(total_weight * 2 / 3) + 1`, strictly more than two thirds. -/
def VoterSet.threshold (vs : VoterSet) : Nat :=
  vs.totalWeight * 2 / 3 + 1

/-- Modelled from the spec: the per-round, per-kind tally — the single latest
accepted vote of each voter, plus the voters caught equivocating, whose
weight is excluded from all subsequent tallying. -/
structure Tally where
  votes : List (Nat × BlockInfo)
  equivocators : List Nat
deriving DecidableEq

/-- The accepted vote target of a voter in a tally, when it has one. -/
def voteOf (t : Tally) (i : Nat) : Option BlockInfo :=
  (t.votes.find? (fun e => e.1 == i)).map Prod.snd

/-- Modelled from the spec: the chain oracle — the finite set of known blocks
and the ancestry test; `covers b z` states that `z` is `b` itself or a
descendant of `b`. -/
structure Chain where
  blocks : List BlockInfo
  covers : BlockInfo → BlockInfo → Bool

/-- Modelled from the spec: the cumulative weight, for a block `b`, of the
voters whose accepted vote targets `b` or a descendant of `b`. -/
def weightFor (vs : VoterSet) (ch : Chain) (t : Tally) (b : BlockInfo) : Nat :=
  (vs.voters.map (fun v =>
    match voteOf t v.id with
    | some z => if ch.covers b z = true then v.weight else 0
    | none => 0)).sum

/-- Modelled from the spec: the maximum future weight contribution — the
cumulative weight of the non-equivocating voters that have not voted yet. -/
def undecidedWeight (vs : VoterSet) (t : Tally) : Nat :=
  (vs.voters.map (fun v =>
    if voteOf t v.id = none ∧ t.equivocators.contains v.id = false
      then v.weight else 0)).sum

/-- Modelled from the spec: a block is the best final candidate when it meets
the supermajority threshold and every other block meeting it has a strictly
smaller number (several maximal-number candidates are an invariant violation
reported as an error, never resolved arbitrarily). -/
def isBestCandidate (vs : VoterSet) (ch : Chain) (t : Tally) (c : BlockInfo) : Bool :=
  decide (vs.threshold ≤ weightFor vs ch t c) &&
    ch.blocks.all (fun b =>
      !(decide (vs.threshold ≤ weightFor vs ch t b))
        || decide (b.number < c.number) || decide (b = c))

/-- Modelled from the spec: `best_final_candidate` — the unique
maximal-number block of the chain meeting the supermajority threshold on the
precommit tally, `none` when no block qualifies or the maximum is ambiguous. -/
def bestFinalCandidate (vs : VoterSet) (ch : Chain) (t : Tally) : Option BlockInfo :=
  ch.blocks.find? (isBestCandidate vs ch t)

/-- Modelled from the spec: `is_completable` — the best candidate exists and
no strictly-greater-numbered block could reach the threshold even if all
undecided weight were added to it. -/
def isCompletable (vs : VoterSet) (ch : Chain) (t : Tally) : Bool :=
  match bestFinalCandidate vs ch t with
  | none => false
  | some c =>
    ch.blocks.all (fun b =>
      !(decide (c.number < b.number))
        || decide (weightFor vs ch t b + undecidedWeight vs t < vs.threshold))

/-- Modelled from the spec: the outcomes of `import_vote` (§4.3). -/
inductive Outcome where
  | Accepted
  | Equivocated
  | Duplicate
  | Rejected
deriving DecidableEq

/-- Modelled from the spec: `import_vote` on one kind's tally. A vote from a
voter unknown to the set, or targeting a block that is not the round base nor
a descendant of it, is `Rejected` (signature validity is delegated to the
external verifier and assumed already checked). A repeated identical vote,
or any vote from a voter already caught equivocating (whose weight stays
excluded), is an idempotent `Duplicate`. A second, different vote from a
voter that already voted removes that voter from the tally and records the
equivocation. A first vote from a fresh voter is `Accepted`. -/
def importVote (vs : VoterSet) (ch : Chain) (base : BlockInfo) (t : Tally)
    (x : Nat) (tgt : BlockInfo) : Tally × Outcome :=
  match (vs.voters.any (fun v => v.id == x)) && ch.covers base tgt with
  | false => (t, .Rejected)
  | true =>
    match t.equivocators.contains x with
    | true => (t, .Duplicate)
    | false =>
      match voteOf t x with
      | some prev =>
        if prev = tgt then (t, .Duplicate)
        else (⟨t.votes.filter (fun e => !(e.1 == x)), x :: t.equivocators⟩, .Equivocated)
      | none => (⟨(x, tgt) :: t.votes, t.equivocators⟩, .Accepted)

/-- Well-formed block reference: 64-bit number and 32-byte hash. -/
def BlockInfo.wf (b : BlockInfo) : Prop :=
  b.number < 2 ^ 64 ∧ b.hash.length = 32

/-- Well-formed signed message: well-formed target block reference, 64-byte
signature, 32-byte id. -/
def SignedMessage.wf (m : SignedMessage) : Prop :=
  m.message.target.wf ∧ m.signature.length = 64 ∧ m.id.length = 32

instance decidableBlockInfoWf (b : BlockInfo) : Decidable b.wf :=
  inferInstanceAs (Decidable (b.number < 2 ^ 64 ∧ b.hash.length = 32))

instance decidableSignedMessageWf (m : SignedMessage) : Decidable m.wf :=
  inferInstanceAs
    (Decidable (m.message.target.wf ∧ m.signature.length = 64 ∧ m.id.length = 32))

/-- A concrete 32-byte digest used by the concrete instances below. -/
def exHash : List Byte :=
  List.replicate 32 7

/-- A concrete 64-byte signature. -/
def exSig : List Byte :=
  List.replicate 64 3

/-- A concrete 32-byte voter id. -/
def exId : List Byte :=
  List.replicate 32 4

/-- A concrete block reference. -/
def exBI : BlockInfo :=
  ⟨5, exHash⟩

/-- A concrete signed message with a `Prevote` payload. -/
def exMsgPrevote : SignedMessage :=
  ⟨.Prevote exBI, exSig, exId⟩

/-- A concrete signed message with a `Precommit` payload. -/
def exMsgPrecommit : SignedMessage :=
  ⟨.Precommit exBI, exSig, exId⟩

/-- A concrete justification byte stream that encodes a round number, a
finalized block reference and an empty precommit sequence, with no trailing
ancestry-headers field. -/
def exJustStream : List Byte :=
  putU64 [] 1 ++ putBlockInfo [] exBI ++ encodeCompact 0

/-- Concrete chain block number 9 (the round base). -/
def exB9 : BlockInfo :=
  ⟨9, [9]⟩

/-- Concrete chain block number 10, child of block 9. -/
def exB10 : BlockInfo :=
  ⟨10, [10]⟩

/-- Concrete chain block number 11, child of block 10. -/
def exB11 : BlockInfo :=
  ⟨11, [11]⟩

/-- Concrete chain block number 11 on a sibling branch, child of block 10. -/
def exB11b : BlockInfo :=
  ⟨11, [12]⟩

/-- The ancestry relation of the concrete chain, as an explicit list of
`(ancestor, descendant-or-self)` pairs. -/
def exCoversPairs : List (BlockInfo × BlockInfo) :=
  [(exB9, exB9), (exB9, exB10), (exB9, exB11), (exB9, exB11b),
   (exB10, exB10), (exB10, exB11), (exB10, exB11b),
   (exB11, exB11), (exB11b, exB11b)]

/-- The concrete chain oracle over blocks 9, 10, 11 and 11b.  -/
def exChain : Chain :=
  ⟨[exB9, exB10, exB11, exB11b], fun a b => decide ((a, b) ∈ exCoversPairs)⟩

/-- A concrete voter set of four voters of weight one each (total weight 4,
threshold 3). -/
def exVS : VoterSet :=
  ⟨[⟨1, 1⟩, ⟨2, 1⟩, ⟨3, 1⟩, ⟨4, 1⟩]⟩

/-- A concrete precommit tally: voters 1, 2 and 3 target block 10, voter 4
has not voted, nobody equivocated. -/
def exTally : Tally :=
  ⟨[(1, exB10), (2, exB10), (3, exB10)], []⟩

/-! Helper lemmas about the encoder streams. -/

theorem putU64_hom (st : List Byte) (n : Nat) :
    putU64 st n = st ++ putU64 [] n := by
  simp [putU64]

theorem putBlockInfo_hom (st : List Byte) (b : BlockInfo) :
    putBlockInfo st b = st ++ putBlockInfo [] b := by
  simp [putBlockInfo, putBytes, putU64]

theorem putVote_hom (st : List Byte) (v : Vote) :
    putVote st v = st ++ putVote [] v := by
  cases v <;> simp [putVote, putBlockInfo, putBytes, putU64]

theorem putSignedMessage_hom (st : List Byte) (m : SignedMessage) :
    putSignedMessage st m = st ++ putSignedMessage [] m := by
  simp only [putSignedMessage, putBytes]
  rw [putVote_hom st m.message]
  simp [List.append_assoc]

theorem putAuthPair_hom (st : List Byte) (p : List Byte × List Byte) :
    putAuthPair st p = st ++ putAuthPair [] p := by
  simp [putAuthPair, putBytes]

theorem putBlockHeader_hom (st : List Byte) (h : BlockHeader) :
    putBlockHeader st h = st ++ putBlockHeader [] h := by
  simp [putBlockHeader, putBytes, putU64]

theorem putListT_hom {α : Type} (enc : List Byte → α → List Byte)
    (hom : ∀ s x, enc s x = s ++ enc [] x) :
    ∀ (xs : List α) (st : List Byte),
      putListT enc st xs = st ++ putListT enc [] xs
  | [], st => by simp [putListT]
  | x :: xs, st => by
    rw [putListT, putListT, putListT_hom enc hom xs (enc st x),
      putListT_hom enc hom xs (enc [] x), hom st x, List.append_assoc]

theorem putVecWith_hom {α : Type} (enc : List Byte → α → List Byte)
    (hom : ∀ s x, enc s x = s ++ enc [] x) (st : List Byte) (xs : List α) :
    putVecWith enc st xs = st ++ putVecWith enc [] xs := by
  rw [putVecWith, putVecWith, putListT_hom enc hom xs,
    putListT_hom enc hom xs (([] : List Byte) ++ encodeCompact xs.length),
    List.nil_append, List.append_assoc]

theorem putSignedPrecommit_hom (st : List Byte) (m : SignedMessage) :
    putSignedPrecommit st m = (putSignedPrecommit [] m).map (st ++ ·) := by
  obtain ⟨v, sig, i⟩ := m
  cases v with
  | Prevote b => rfl
  | PrimaryPropose b => rfl
  | Precommit b =>
    simp only [putSignedPrecommit, putBytes, Option.map_some']
    rw [putBlockInfo_hom st b]
    simp [List.append_assoc]

theorem putListO_hom {α : Type} (enc : List Byte → α → Option (List Byte))
    (hom : ∀ s x, enc s x = (enc [] x).map (s ++ ·)) :
    ∀ (xs : List α) (st : List Byte),
      putListO enc st xs = (putListO enc [] xs).map (st ++ ·)
  | [], st => by simp [putListO]
  | x :: xs, st => by
    rw [putListO, putListO]
    cases hx : enc [] x with
    | none =>
      rw [hom st x, hx]
      rfl
    | some e =>
      rw [hom st x, hx]
      simp only [Option.map_some', Option.bind_eq_bind, Option.some_bind]
      rw [putListO_hom enc hom xs (st ++ e), putListO_hom enc hom xs e]
      cases putListO enc [] xs with
      | none => rfl
      | some l => simp

theorem putVecOpt_hom {α : Type} (enc : List Byte → α → Option (List Byte))
    (hom : ∀ s x, enc s x = (enc [] x).map (s ++ ·)) (st : List Byte) (xs : List α) :
    putVecOpt enc st xs = (putVecOpt enc [] xs).map (st ++ ·) := by
  rw [putVecOpt, putVecOpt, putListO_hom enc hom xs,
    putListO_hom enc hom xs (([] : List Byte) ++ encodeCompact xs.length)]
  cases putListO enc [] xs with
  | none => rfl
  | some l => simp

/-! Helper lemmas about the decoder streams. -/

theorem toLE_length : ∀ (w n : Nat), (toLE w n).length = w
  | 0, _ => rfl
  | w + 1, n => by simp [toLE, toLE_length w]

theorem fromLE_toLE : ∀ (w n : Nat), n < 256 ^ w → fromLE (toLE w n) = n
  | 0, n, h => by
    simp only [pow_zero, Nat.lt_one_iff] at h
    simp [toLE, fromLE, h]
  | w + 1, n, h => by
    have hd : n / 256 < 256 ^ w := by
      rw [Nat.div_lt_iff_lt_mul (by norm_num : (0 : Nat) < 256)]
      rw [pow_succ] at h
      exact h
    simp only [toLE, fromLE, fromLE_toLE w (n / 256) hd]
    exact Nat.mod_add_div n 256

theorem readBytes_exact (l r : List Byte) :
    readBytes l.length (l ++ r) = .ok (l, r) := by
  simp [readBytes, List.take_left, List.drop_left]

theorem exceptBind_ok {ε α β : Type} {x : Except ε α} {f : α → Except ε β} {b : β}
    (h : x >>= f = .ok b) : ∃ a, x = .ok a ∧ f a = .ok b := by
  cases x with
  | error e => exact absurd h (by simp [Bind.bind, Except.bind])
  | ok a => exact ⟨a, rfl, by simpa [Bind.bind, Except.bind] using h⟩

theorem decodeU64_encode (n : Nat) (h : n < 2 ^ 64) (r : List Byte) :
    decodeU64 (toLE 8 n ++ r) = .ok (n, r) := by
  have h256 : n < 256 ^ 8 := by
    have : (256 : Nat) ^ 8 = 2 ^ 64 := by norm_num
    omega
  have hrb := readBytes_exact (toLE 8 n) r
  rw [toLE_length] at hrb
  rw [decodeU64, hrb]
  simp [Bind.bind, Except.bind, fromLE_toLE 8 n h256]

theorem decodeBlockInfo_encode (b : BlockInfo) (h : b.wf) (r : List Byte) :
    decodeBlockInfo (putBlockInfo [] b ++ r) = .ok (b, r) := by
  obtain ⟨hn, hh⟩ := h
  have hshape : putBlockInfo [] b ++ r = toLE 8 b.number ++ (b.hash ++ r) := by
    simp [putBlockInfo, putBytes, putU64]
  rw [decodeBlockInfo, hshape, decodeU64_encode b.number hn]
  have hl : (32 : Nat) = b.hash.length := hh.symm
  simp only [Bind.bind, Except.bind]
  rw [hl, readBytes_exact]

theorem decodeVote_encode (v : Vote) (h : v.target.wf) (r : List Byte) :
    decodeVote (putVote [] v ++ r) = .ok (v, r) := by
  cases v with
  | Prevote b =>
    have hshape : putVote [] (Vote.Prevote b) ++ r = 0 :: (putBlockInfo [] b ++ r) := by
      rw [putVote, putBlockInfo_hom]
      simp
    rw [hshape, decodeVote]
    simp [decodeBlockInfo_encode b h r, Bind.bind, Except.bind]
  | Precommit b =>
    have hshape : putVote [] (Vote.Precommit b) ++ r = 1 :: (putBlockInfo [] b ++ r) := by
      rw [putVote, putBlockInfo_hom]
      simp
    rw [hshape, decodeVote]
    simp [decodeBlockInfo_encode b h r, Bind.bind, Except.bind]
  | PrimaryPropose b =>
    have hshape : putVote [] (Vote.PrimaryPropose b) ++ r
        = 2 :: (putBlockInfo [] b ++ r) := by
      rw [putVote, putBlockInfo_hom]
      simp
    rw [hshape, decodeVote]
    simp [decodeBlockInfo_encode b h r, Bind.bind, Except.bind]

/-! Helper lemmas about the round tally model. -/

theorem sum_map_add {α : Type} (l : List α) (f g : α → Nat) :
    (l.map fun v => f v + g v).sum = (l.map f).sum + (l.map g).sum := by
  induction l with
  | nil => rfl
  | cons a l ih =>
    simp only [List.map_cons, List.sum_cons, ih]
    omega

theorem find_unique {α : Type} {p : α → Bool} :
    ∀ {l : List α} {c : α}, c ∈ l → p c = true →
      (∀ b ∈ l, p b = true → b = c) → l.find? p = some c
  | [], c, hc, _, _ => absurd hc (List.not_mem_nil c)
  | a :: l, c, hc, hpc, huniq => by
    by_cases ha : p a = true
    · have hac : a = c := huniq a (List.mem_cons_self a l) ha
      subst hac
      simp [List.find?_cons, ha]
    · have hcl : c ∈ l := by
        rcases List.mem_cons.mp hc with h | h
        · exact absurd (h ▸ hpc) ha
        · exact h
      have ha' : p a = false := Bool.not_eq_true _ ▸ ha
      simp only [List.find?_cons, ha']
      exact find_unique hcl hpc (fun b hb hpb => huniq b (List.mem_cons_of_mem a hb) hpb)

theorem voteOf_insert (vl : List (Nat × BlockInfo)) (eqv : List Nat)
    (x i : Nat) (tgt : BlockInfo) :
    voteOf ⟨(x, tgt) :: vl, eqv⟩ i
      = if x = i then some tgt else voteOf ⟨vl, eqv⟩ i := by
  by_cases h : x = i
  · simp [voteOf, List.find?_cons, h]
  · have : ((x, tgt).1 == i) = false := by simpa using h
    simp [voteOf, List.find?_cons, this, h]

theorem weightFor_le_insert (vs : VoterSet) (ch : Chain) (t : Tally)
    (x : Nat) (tgt : BlockInfo) (b : BlockInfo) (hx : voteOf t x = none) :
    weightFor vs ch t b ≤ weightFor vs ch ⟨(x, tgt) :: t.votes, t.equivocators⟩ b := by
  apply List.sum_le_sum
  intro v _
  rw [voteOf_insert t.votes t.equivocators x v.id tgt]
  by_cases h : x = v.id
  · have : voteOf t v.id = none := h ▸ hx
    have ht : voteOf ⟨t.votes, t.equivocators⟩ v.id = none := this
    simp [this, h]
  · simp only [if_neg h]
    exact le_refl _

theorem weightFor_insert_le (vs : VoterSet) (ch : Chain) (t : Tally)
    (x : Nat) (tgt : BlockInfo) (b : BlockInfo)
    (hx : voteOf t x = none) (hxe : t.equivocators.contains x = false) :
    weightFor vs ch ⟨(x, tgt) :: t.votes, t.equivocators⟩ b
      ≤ weightFor vs ch t b + undecidedWeight vs t := by
  rw [weightFor, weightFor, undecidedWeight, ← sum_map_add]
  apply List.sum_le_sum
  intro v _
  rw [voteOf_insert t.votes t.equivocators x v.id tgt]
  by_cases h : x = v.id
  · have h1 : voteOf t v.id = none := h ▸ hx
    have h2 : t.equivocators.contains v.id = false := h ▸ hxe
    simp only [if_pos h, h1, h2]
    split <;> simp
  · simp only [if_neg h]
    have hveq : voteOf ⟨t.votes, t.equivocators⟩ v.id = voteOf t v.id := rfl
    rw [hveq]
    exact Nat.le_add_right _ _

theorem voteOf_target_mem (t : Tally) (i : Nat) (z : BlockInfo)
    (h : voteOf t i = some z) : z ∈ t.votes.map Prod.snd := by
  rw [voteOf] at h
  obtain ⟨e, he, hez⟩ := Option.map_eq_some'.mp h
  exact hez ▸ List.mem_map_of_mem Prod.snd (List.mem_of_find?_eq_some he)

theorem weightFor_pair_le_total (vs : VoterSet) (ch : Chain) (t : Tally)
    (b c : BlockInfo)
    (hdisj : ∀ z ∈ t.votes.map Prod.snd,
      ¬(ch.covers b z = true ∧ ch.covers c z = true)) :
    weightFor vs ch t b + weightFor vs ch t c ≤ vs.totalWeight := by
  rw [weightFor, weightFor, VoterSet.totalWeight, ← sum_map_add]
  apply List.sum_le_sum
  intro v _
  cases hz : voteOf t v.id with
  | none => simp
  | some z =>
    have hmem := voteOf_target_mem t v.id z hz
    have hnb := hdisj z hmem
    by_cases hb : ch.covers b z = true
    · have hc : ¬ ch.covers c z = true := fun hc => hnb ⟨hb, hc⟩
      simp [hb, hc]
    · simp [hb]
      split <;> simp

theorem total_lt_two_threshold (vs : VoterSet) :
    vs.totalWeight < vs.threshold + vs.threshold := by
  rw [VoterSet.threshold]
  have h1 := Nat.div_add_mod (vs.totalWeight * 2) 3
  have h2 : vs.totalWeight * 2 % 3 < 3 := Nat.mod_lt _ (by norm_num)
  omega

theorem isBestCandidate_iff (vs : VoterSet) (ch : Chain) (t : Tally) (c : BlockInfo) :
    isBestCandidate vs ch t c = true ↔
      vs.threshold ≤ weightFor vs ch t c ∧
        ∀ b ∈ ch.blocks, vs.threshold ≤ weightFor vs ch t b →
          b.number < c.number ∨ b = c := by
  simp only [isBestCandidate, Bool.and_eq_true, decide_eq_true_eq, List.all_eq_true,
    Bool.or_eq_true, Bool.not_eq_true', decide_eq_false_iff_not]
  constructor
  · rintro ⟨h1, h2⟩
    refine ⟨h1, fun b hb hp => ?_⟩
    have h3 := h2 b hb
    tauto
  · rintro ⟨h1, h2⟩
    refine ⟨h1, fun b hb => ?_⟩
    by_cases hp : vs.threshold ≤ weightFor vs ch t b
    · have h3 := h2 b hb hp
      tauto
    · tauto

theorem isCompletable_inv (vs : VoterSet) (ch : Chain) (t : Tally)
    (h : isCompletable vs ch t = true) :
    ∃ c, bestFinalCandidate vs ch t = some c ∧
      ∀ b ∈ ch.blocks, c.number < b.number →
        weightFor vs ch t b + undecidedWeight vs t < vs.threshold := by
  rw [isCompletable] at h
  cases hbfc : bestFinalCandidate vs ch t with
  | none => rw [hbfc] at h; exact absurd h (by simp)
  | some c =>
    rw [hbfc] at h
    refine ⟨c, rfl, ?_⟩
    simp only [List.all_eq_true, Bool.or_eq_true, Bool.not_eq_true',
      decide_eq_false_iff_not, decide_eq_true_eq] at h
    intro b hb hlt
    have h3 := h b hb
    tauto

theorem importVote_accepted_inv (vs : VoterSet) (ch : Chain) (base : BlockInfo)
    (t : Tally) (x : Nat) (tgt : BlockInfo)
    (h : (importVote vs ch base t x tgt).2 = Outcome.Accepted) :
    importVote vs ch base t x tgt
        = (⟨(x, tgt) :: t.votes, t.equivocators⟩, Outcome.Accepted) ∧
      voteOf t x = none ∧ t.equivocators.contains x = false := by
  rw [importVote] at h
  split at h
  · exact absurd h (by simp)
  · rename_i hok
    split at h
    · exact absurd h (by simp)
    · rename_i hne
      split at h
      · split at h
        · exact absurd h (by simp)
        · exact absurd h (by simp)
      · rename_i hnone
        refine ⟨?_, hnone, hne⟩
        simp only [importVote, hok, hne, hnone]

theorem importVote_duplicate_inv (vs : VoterSet) (ch : Chain) (base : BlockInfo)
    (t : Tally) (x : Nat) (tgt : BlockInfo)
    (h : (importVote vs ch base t x tgt).2 = Outcome.Duplicate) :
    (importVote vs ch base t x tgt).1 = t := by
  rw [importVote] at h
  split at h
  · exact absurd h (by simp)
  · rename_i hok
    split at h
    · rename_i heqv
      simp only [importVote, hok, heqv]
    · rename_i hne
      split at h
      · rename_i prev hsome
        split at h
        · rename_i hpt
          simp only [importVote, hok, hne, hsome, if_pos hpt]
        · exact absurd h (by simp)
      · exact absurd h (by simp)

/-- Accepted (and idempotent duplicate) vote imports never change the best
final candidate of a completable round: the central stability argument. -/
theorem bestFinalCandidate_stable_core (vs : VoterSet) (ch : Chain)
    (base : BlockInfo) (t : Tally) (x : Nat) (tgt : BlockInfo)
    (Hcmp : ∀ b ∈ ch.blocks, ∀ c ∈ ch.blocks, ∀ z ∈ tgt :: t.votes.map Prod.snd,
      ch.covers b z = true → ch.covers c z = true →
      ch.covers b c = true ∨ ch.covers c b = true)
    (Hasym : ∀ b ∈ ch.blocks, ∀ c ∈ ch.blocks,
      ch.covers b c = true → b.number = c.number → b = c)
    (Hcomp : isCompletable vs ch t = true)
    (Hacc : (importVote vs ch base t x tgt).2 = Outcome.Accepted) :
    bestFinalCandidate vs ch (importVote vs ch base t x tgt).1
      = bestFinalCandidate vs ch t := by
  obtain ⟨Heq, hx, hxe⟩ := importVote_accepted_inv vs ch base t x tgt Hacc
  rw [Heq]
  obtain ⟨c, hbfc, Hhigh⟩ := isCompletable_inv vs ch t Hcomp
  rw [hbfc]
  have hcmem : c ∈ ch.blocks := List.mem_of_find?_eq_some hbfc
  obtain ⟨hc1, hc2⟩ := (isBestCandidate_iff vs ch t c).mp (List.find?_some hbfc)
  have hmono : ∀ b, weightFor vs ch t b
      ≤ weightFor vs ch ⟨(x, tgt) :: t.votes, t.equivocators⟩ b :=
    fun b => weightFor_le_insert vs ch t x tgt b hx
  have hbound : ∀ b, weightFor vs ch ⟨(x, tgt) :: t.votes, t.equivocators⟩ b
      ≤ weightFor vs ch t b + undecidedWeight vs t :=
    fun b => weightFor_insert_le vs ch t x tgt b hx hxe
  have hc1' : vs.threshold ≤ weightFor vs ch ⟨(x, tgt) :: t.votes, t.equivocators⟩ c :=
    le_trans hc1 (hmono c)
  have hnohigh : ∀ b ∈ ch.blocks,
      vs.threshold ≤ weightFor vs ch ⟨(x, tgt) :: t.votes, t.equivocators⟩ b →
        ¬ c.number < b.number := by
    intro b hb hpb hlt
    have h1 := Hhigh b hb hlt
    have h2 := hbound b
    omega
  have hsame : ∀ b ∈ ch.blocks,
      vs.threshold ≤ weightFor vs ch ⟨(x, tgt) :: t.votes, t.equivocators⟩ b →
        b.number = c.number → b = c := by
    intro b hb hpb heqn
    by_contra hne
    have hdisj : ∀ z ∈ (⟨(x, tgt) :: t.votes, t.equivocators⟩ : Tally).votes.map Prod.snd,
        ¬(ch.covers b z = true ∧ ch.covers c z = true) := by
      rintro z hz ⟨hbz, hcz⟩
      have hz' : z ∈ tgt :: t.votes.map Prod.snd := by simpa using hz
      rcases Hcmp b hb c hcmem z hz' hbz hcz with h | h
      · exact hne (Hasym b hb c hcmem h heqn)
      · exact hne ((Hasym c hcmem b hb h heqn.symm).symm)
    have hpair := weightFor_pair_le_total vs ch
      ⟨(x, tgt) :: t.votes, t.equivocators⟩ b c hdisj
    have htot := total_lt_two_threshold vs
    omega
  rw [bestFinalCandidate]
  apply find_unique hcmem
  · rw [isBestCandidate_iff]
    refine ⟨hc1', fun b hb hpb => ?_⟩
    rcases Nat.lt_trichotomy b.number c.number with h | h | h
    · exact .inl h
    · exact .inr (hsame b hb hpb h)
    · exact absurd h (hnohigh b hb hpb)
  · intro b hb hpb
    obtain ⟨hb1, hb2⟩ :=
      (isBestCandidate_iff vs ch ⟨(x, tgt) :: t.votes, t.equivocators⟩ b).mp hpb
    rcases hb2 c hcmem hc1' with h | h
    · exact absurd h (hnohigh b hb hb1)
    · exact h.symm

/-! Theorems settling the claims. -/

/-- Claim C1 (amended): a byte stream whose round number, finalized block
reference and precommit sequence consume the whole stream — i.e. one with no
trailing ancestry-headers field — makes the structs.hpp justification decoder
observe `hasMore(1) = false` on the empty remainder (triggering the
missing-field error log) and then fail with a not-enough-data decode error;
the missing field is never defaulted to an empty sequence. -/
theorem grandpaJustification_missing_ancestries_error (s s1 s2 : List Byte)
    (r : Nat) (bi : BlockInfo) (items : List SignedMessage)
    (h1 : decodeU64 s = .ok (r, s1))
    (h2 : decodeBlockInfo s1 = .ok (bi, s2))
    (h3 : decodeVec decodeSignedPrecommit s2 = .ok (items, [])) :
    hasMore 1 ([] : List Byte) = false ∧
      decodeGrandpaJustification s = .error .notEnoughData := by
  refine ⟨rfl, ?_⟩
  rw [decodeGrandpaJustification, h1]
  simp only [Bind.bind, Except.bind, h2, h3]
  rfl

/-- Claim C1 as stated is false on the code: `exJustStream` encodes round
number 1, the block reference `exBI` and an empty precommit sequence, with no
trailing ancestry-headers field, yet decoding does not succeed with empty
`votes_ancestries` — it is a fatal not-enough-data decode error. -/
theorem grandpaJustification_missing_ancestries_cex :
    decodeU64 exJustStream = .ok (1, putBlockInfo [] exBI ++ encodeCompact 0) ∧
      decodeBlockInfo (putBlockInfo [] exBI ++ encodeCompact 0)
        = .ok (exBI, encodeCompact 0) ∧
      decodeVec decodeSignedPrecommit (encodeCompact 0)
        = .ok (([] : List SignedMessage), ([] : List Byte)) ∧
      decodeGrandpaJustification exJustStream = .error .notEnoughData ∧
      decodeGrandpaJustification exJustStream
        ≠ .ok (⟨1, exBI, [], []⟩, ([] : List Byte)) := by
  refine ⟨rfl, rfl, rfl, rfl, ?_⟩
  intro hc
  have h : decodeGrandpaJustification exJustStream = .error .notEnoughData := rfl
  rw [h] at hc
  exact Except.noConfusion hc

/-- Witness for the amended claim C1 at the concrete stream `exJustStream`. -/
theorem grandpaJustification_missing_ancestries_error_witness :
    hasMore 1 ([] : List Byte) = false ∧
      decodeGrandpaJustification exJustStream = .error .notEnoughData :=
  grandpaJustification_missing_ancestries_error exJustStream
    (putBlockInfo [] exBI ++ encodeCompact 0) (encodeCompact 0) 1 exBI []
    rfl rfl rfl

/-- Claim C2: the `Vote` union's wire discriminants follow the declaration
order of structs.hpp — the serialized tag byte is 0 for a `Prevote` payload,
1 for a `Precommit` payload, and 2 for a `PrimaryPropose` payload. -/
theorem vote_tag_order (b : BlockInfo) :
    (putVote [] (Vote.Prevote b)).head? = some 0 ∧
      (putVote [] (Vote.Precommit b)).head? = some 1 ∧
      (putVote [] (Vote.PrimaryPropose b)).head? = some 2 := by
  refine ⟨?_, ?_, ?_⟩ <;> (rw [putVote, putBlockInfo_hom]; rfl)

/-- Claim C3: the encoding of a `GrandpaJustification` is the concatenation
of the encodings of the round number, the finalized block reference, the
precommit sequence and the ancestry-header sequence, in exactly that field
order (whenever the precommit sequence is encodable at all, i.e. every item
carries the `Precommit` variant). -/
theorem grandpaJustification_encoding_order (j : GrandpaJustification)
    (ib : List Byte) (h : putVecOpt putSignedPrecommit [] j.items = some ib) :
    putGrandpaJustification [] j
      = some (putU64 [] j.round_number ++ putBlockInfo [] j.block_info
          ++ ib ++ putVecWith putBlockHeader [] j.votes_ancestries) := by
  rw [putGrandpaJustification, putBlockInfo_hom,
    putVecOpt_hom putSignedPrecommit putSignedPrecommit_hom, h]
  simp only [Option.map_some', Option.bind_eq_bind, Option.some_bind]
  rw [putVecWith_hom putBlockHeader putBlockHeader_hom]

set_option maxRecDepth 4000 in
/-- Witness for claim C3 at a concrete justification holding one precommit. -/
theorem grandpaJustification_encoding_order_witness :
    putGrandpaJustification [] ⟨1, exBI, [exMsgPrecommit], []⟩
      = some (putU64 [] 1 ++ putBlockInfo [] exBI
          ++ (encodeCompact 1 ++ putBlockInfo [] exBI ++ exSig ++ exId)
          ++ putVecWith putBlockHeader [] []) :=
  grandpaJustification_encoding_order ⟨1, exBI, [exMsgPrecommit], []⟩
    (encodeCompact 1 ++ putBlockInfo [] exBI ++ exSig ++ exId) (by decide)

/-- Claim C4: the encoding of a `CompactCommit` is the concatenation of the
encodings of the target hash, the target number, the precommit-target
sequence and the parallel `(signature, id)` sequence, in exactly that field
order; the authentication data forms its own trailing sequence instead of
being embedded per precommit. -/
theorem compactCommit_encoding_order (c : CompactCommit) :
    putCompactCommit [] c
      = putBytes [] c.target_hash ++ putU64 [] c.target_number
        ++ putVecWith putBlockInfo [] c.precommits
        ++ putVecWith putAuthPair [] c.auth_data := by
  rw [putCompactCommit, putVecWith_hom putAuthPair putAuthPair_hom,
    putVecWith_hom putBlockInfo putBlockInfo_hom, putU64_hom]

/-- Claim C5: a `SignedPrevote`'s (resp. `SignedPrecommit`'s) declared kind
and payload variant always match — its encoder is defined exactly when the
payload carries the corresponding variant, and its decoder always produces a
message carrying that variant. -/
theorem signedVote_kind_payload_match :
    (∀ m : SignedMessage, (putSignedPrevote [] m).isSome = m.isPrevote) ∧
      (∀ m : SignedMessage, (putSignedPrecommit [] m).isSome = m.isPrecommit) ∧
      (∀ s r : List Byte, ∀ m : SignedMessage,
        decodeSignedPrevote s = .ok (m, r) → m.isPrevote = true) ∧
      (∀ s r : List Byte, ∀ m : SignedMessage,
        decodeSignedPrecommit s = .ok (m, r) → m.isPrecommit = true) := by
  refine ⟨?_, ?_, ?_, ?_⟩
  · intro m
    obtain ⟨v, sig, i⟩ := m
    cases v <;> rfl
  · intro m
    obtain ⟨v, sig, i⟩ := m
    cases v <;> rfl
  · intro s r m h
    rw [decodeSignedPrevote] at h
    obtain ⟨⟨b, s1⟩, _, h⟩ := exceptBind_ok h
    obtain ⟨⟨sig, s2⟩, _, h⟩ := exceptBind_ok h
    obtain ⟨⟨i, s3⟩, _, h⟩ := exceptBind_ok h
    obtain ⟨rfl, rfl⟩ := Prod.mk.injEq .. ▸ Except.ok.inj h
    rfl
  · intro s r m h
    rw [decodeSignedPrecommit] at h
    obtain ⟨⟨b, s1⟩, _, h⟩ := exceptBind_ok h
    obtain ⟨⟨sig, s2⟩, _, h⟩ := exceptBind_ok h
    obtain ⟨⟨i, s3⟩, _, h⟩ := exceptBind_ok h
    obtain ⟨rfl, rfl⟩ := Prod.mk.injEq .. ▸ Except.ok.inj h
    rfl

set_option maxRecDepth 4000 in
/-- Witness for claim C5 at concrete messages and concrete streams. -/
theorem signedVote_kind_payload_match_witness :
    (putSignedPrevote [] exMsgPrevote).isSome = exMsgPrevote.isPrevote ∧
      exMsgPrevote.isPrevote = true ∧ exMsgPrecommit.isPrecommit = true :=
  ⟨signedVote_kind_payload_match.1 exMsgPrevote,
    signedVote_kind_payload_match.2.2.1 (putBlockInfo [] exBI ++ (exSig ++ exId))
      [] exMsgPrevote rfl,
    signedVote_kind_payload_match.2.2.2 (putBlockInfo [] exBI ++ (exSig ++ exId))
      [] exMsgPrecommit rfl⟩

/-- Claim C6: equality on `SignedMessage` is structural over the three fields
`message`, `signature` and `id`, and `operator!=` is its negation. -/
theorem signedMessage_eq_structural (a b : SignedMessage) :
    (a.eqOp b = true
        ↔ a.message = b.message ∧ a.signature = b.signature ∧ a.id = b.id) ∧
      (a.neOp b = true ↔ ¬ a.eqOp b = true) := by
  constructor
  · simp [SignedMessage.eqOp, and_assoc]
  · simp [SignedMessage.neOp]

/-- Witness for claim C6 at concrete messages. -/
theorem signedMessage_eq_structural_witness :
    exMsgPrevote.eqOp exMsgPrevote = true ∧
      exMsgPrevote.neOp exMsgPrecommit = true :=
  ⟨(signedMessage_eq_structural exMsgPrevote exMsgPrevote).1.mpr ⟨rfl, rfl, rfl⟩,
    (signedMessage_eq_structural exMsgPrevote exMsgPrecommit).2.mpr (by decide)⟩

/-- Claim C7: the derived accessors of `SignedMessage` delegate to the active
`Vote` variant, uniformly over all three variants: `getBlockNumber` returns
the active variant's number, `getBlockHash` its hash, `getBlockInfo` the pair
of both, and each kind test holds exactly for its own variant. -/
theorem signedMessage_accessors_delegate (b : BlockInfo) (sig i : List Byte) :
    ((SignedMessage.mk (.Prevote b) sig i).getBlockNumber = b.number ∧
      (SignedMessage.mk (.Prevote b) sig i).getBlockHash = b.hash ∧
      (SignedMessage.mk (.Prevote b) sig i).getBlockInfo = b ∧
      (SignedMessage.mk (.Prevote b) sig i).isPrevote = true ∧
      (SignedMessage.mk (.Prevote b) sig i).isPrecommit = false ∧
      (SignedMessage.mk (.Prevote b) sig i).isPrimaryPropose = false) ∧
    ((SignedMessage.mk (.Precommit b) sig i).getBlockNumber = b.number ∧
      (SignedMessage.mk (.Precommit b) sig i).getBlockHash = b.hash ∧
      (SignedMessage.mk (.Precommit b) sig i).getBlockInfo = b ∧
      (SignedMessage.mk (.Precommit b) sig i).isPrevote = false ∧
      (SignedMessage.mk (.Precommit b) sig i).isPrecommit = true ∧
      (SignedMessage.mk (.Precommit b) sig i).isPrimaryPropose = false) ∧
    ((SignedMessage.mk (.PrimaryPropose b) sig i).getBlockNumber = b.number ∧
      (SignedMessage.mk (.PrimaryPropose b) sig i).getBlockHash = b.hash ∧
      (SignedMessage.mk (.PrimaryPropose b) sig i).getBlockInfo = b ∧
      (SignedMessage.mk (.PrimaryPropose b) sig i).isPrevote = false ∧
      (SignedMessage.mk (.PrimaryPropose b) sig i).isPrecommit = false ∧
      (SignedMessage.mk (.PrimaryPropose b) sig i).isPrimaryPropose = true) :=
  ⟨⟨rfl, rfl, rfl, rfl, rfl, rfl⟩, ⟨rfl, rfl, rfl, rfl, rfl, rfl⟩,
    ⟨rfl, rfl, rfl, rfl, rfl, rfl⟩⟩

/-- Claim C8: the signable `VoteMessage` payload encodes the round number,
then the voter-set counter, then the signed vote content, in exactly that
fixed field order. -/
theorem voteMessage_encoding_order (vm : VoteMessage) :
    putVoteMessage [] vm
      = putU64 [] vm.round_number ++ putU64 [] vm.counter
        ++ putSignedMessage [] vm.vote := by
  rw [putVoteMessage, putSignedMessage_hom, putU64_hom]

/-- Claim C9 (amended): once a round is completable, a vote import whose
outcome is `Accepted` or `Duplicate` never changes `best_final_candidate`;
an `Equivocated` import may change it, because the spec removes the
equivocator's weight from the tally (see the counterexample). -/
theorem bestFinalCandidate_stable (vs : VoterSet) (ch : Chain)
    (base : BlockInfo) (t : Tally) (x : Nat) (tgt : BlockInfo)
    (Hcmp : ∀ b ∈ ch.blocks, ∀ c ∈ ch.blocks, ∀ z ∈ tgt :: t.votes.map Prod.snd,
      ch.covers b z = true → ch.covers c z = true →
      ch.covers b c = true ∨ ch.covers c b = true)
    (Hasym : ∀ b ∈ ch.blocks, ∀ c ∈ ch.blocks,
      ch.covers b c = true → b.number = c.number → b = c)
    (Hcomp : isCompletable vs ch t = true)
    (Hout : (importVote vs ch base t x tgt).2 = Outcome.Accepted ∨
      (importVote vs ch base t x tgt).2 = Outcome.Duplicate) :
    bestFinalCandidate vs ch (importVote vs ch base t x tgt).1
      = bestFinalCandidate vs ch t := by
  rcases Hout with Hacc | Hdup
  · exact bestFinalCandidate_stable_core vs ch base t x tgt Hcmp Hasym Hcomp Hacc
  · rw [importVote_duplicate_inv vs ch base t x tgt Hdup]

/-- Claim C9 as stated is false on the spec's model: the concrete round below
is completable with best final candidate block 10, yet importing voter 3's
equivocating vote — a validly signed vote from a known voter for a descendant
of the round base, hence not `Rejected` — removes voter 3's weight and leaves
the round with no best final candidate at all. -/
theorem bestFinalCandidate_stable_cex :
    isCompletable exVS exChain exTally = true ∧
      bestFinalCandidate exVS exChain exTally = some exB10 ∧
      (importVote exVS exChain exB9 exTally 3 exB11b).2 = Outcome.Equivocated ∧
      bestFinalCandidate exVS exChain (importVote exVS exChain exB9 exTally 3 exB11b).1
        ≠ bestFinalCandidate exVS exChain exTally := by
  refine ⟨by decide, by decide, by decide, ?_⟩
  decide

/-- Witness for the amended claim C9 at the concrete round: voter 4's first
vote is accepted and leaves the best final candidate unchanged. -/
theorem bestFinalCandidate_stable_witness :
    bestFinalCandidate exVS exChain (importVote exVS exChain exB9 exTally 4 exB10).1
      = bestFinalCandidate exVS exChain exTally :=
  bestFinalCandidate_stable exVS exChain exB9 exTally 4 exB10
    (by decide) (by decide) (by decide) (.inl (by decide))

/-- Claim C10: `SignedMessage` serialization round-trips — decoding the
encoding (message, then signature, then id) of any well-formed signed message
returns the same message and leaves exactly the trailing bytes. -/
theorem signedMessage_roundtrip (m : SignedMessage) (r : List Byte)
    (h : m.wf) :
    decodeSignedMessage (putSignedMessage [] m ++ r) = .ok (m, r) := by
  obtain ⟨ht, hs, hi⟩ := h
  have hshape : putSignedMessage [] m ++ r
      = putVote [] m.message ++ (m.signature ++ (m.id ++ r)) := by
    simp only [putSignedMessage, putBytes]
    rw [putVote_hom]
    simp [List.append_assoc]
  rw [decodeSignedMessage, hshape, decodeVote_encode m.message ht]
  have h64 := readBytes_exact m.signature (m.id ++ r)
  rw [hs] at h64
  have h32 := readBytes_exact m.id r
  rw [hi] at h32
  simp only [Bind.bind, Except.bind, h64, h32]

/-- Witness for claim C10 at a concrete signed message. -/
theorem signedMessage_roundtrip_witness :
    decodeSignedMessage (putSignedMessage [] exMsgPrevote ++ []) =
      .ok (exMsgPrevote, []) :=
  signedMessage_roundtrip exMsgPrevote [] (by decide)

end KagomeGrandpa
